import Mathlib

/-!
# Verification of the Lies-of-P save editor's core tree engine

This file gives a shallow embedding of the save editor's core tree
manipulation code and proves properties of it:

* `app/core/mission.py` — enum retargeting, case-insensitive path
  resolution (`_get` / `_set`), wrapper unwrapping (`_unwrap`), deep-scan
  entity discovery (`_deep_candidate_scan`, `_find_quest_array_and_path`),
  and the six-tier progress reconciliation inside
  `replace_quest_by_name_smart`.
* `app/core/cheats.py` — the clamped integer setter and the dry-run
  behaviour of the typed setters (`_clamp32`, `_set_int`, `_set_bool`,
  `_set_enum`).
* `app/core/file_manager.py` — the schema-preserving merge
  (`_merge_preserving_schema`).

The JSON-like trees the editor works on are modelled by the inductive
type `Json` below.  Python dictionaries are modelled as ordered
association lists (Python dicts are ordered and have unique keys),
mutation is modelled by returning the updated tree, and Python `float`
payloads are carried as rationals — none of the code modelled here ever
computes with a float value, it only inspects its runtime type.
-/

/-- A JSON-like value as produced by the external decoder: Python
`None`/`bool`/`int`/`float`/`str`/`list`/`dict`.  Python dicts are ordered
with unique keys; they are modelled as association lists in insertion
order. -/
inductive Json where
  | null : Json
  | bool : Bool → Json
  | int : Int → Json
  | float : Rat → Json
  | str : String → Json
  | arr : List Json → Json
  | obj : List (String × Json) → Json
deriving Repr

/-- A path token: a mapping key (string) or a sequence index (integer,
possibly negative — the Python code checks `0 <= p < len(cur)` itself). -/
inductive Tok where
  | key : String → Tok
  | idx : Int → Tok
deriving Repr, DecidableEq

/-- ASCII lower-casing of one character, as Python `str.lower` acts on the
ASCII keys and labels this code handles. -/
def lowerChar (c : Char) : Char :=
  if 'A' ≤ c ∧ c ≤ 'Z' then Char.ofNat (c.toNat + 32) else c

/-- ASCII upper-casing of one character, as Python `str.upper` acts on the
ASCII enum strings this code handles. -/
def upperChar (c : Char) : Char :=
  if 'a' ≤ c ∧ c ≤ 'z' then Char.ofNat (c.toNat - 32) else c

/-- `s.lower()` for the ASCII strings this code handles. -/
def lowerStr (s : String) : String :=
  (s.data.map lowerChar).asString

/-- Exact-key lookup in a Python dict (`d.get(k)` / `k in d`). -/
def lookupKey : List (String × Json) → String → Option Json
  | [], _ => none
  | (k', v) :: rest, k => if k' = k then some v else lookupKey rest k

/-- Replace the value stored at an existing exact key, keeping position and
key string (`d[k] = v` when `k in d`). -/
def assocReplace : List (String × Json) → String → Json → List (String × Json)
  | [], _, _ => []
  | (k', v') :: rest, k, v =>
    if k' = k then (k', v) :: rest else (k', v') :: assocReplace rest k v

/-- `d[k] = v` on a Python dict: replace in place if the key exists,
append at the end otherwise. -/
def dictStore (kvs : List (String × Json)) (k : String) (v : Json) :
    List (String × Json) :=
  match lookupKey kvs k with
  | some _ => assocReplace kvs k v
  | none => kvs ++ [(k, v)]

/-- `d.setdefault(k, v)`: keep the dict unchanged if the key exists,
append `(k, v)` otherwise. -/
def dictSetdefault (kvs : List (String × Json)) (k : String) (v : Json) :
    List (String × Json) :=
  match lookupKey kvs k with
  | some _ => kvs
  | none => kvs ++ [(k, v)]

/-- Case-insensitive lookup through the `_lkeys` map of `mission.py`:
`_lkeys` is `{str(k).lower(): k for k in d}`, so among keys with the same
lower-casing the LAST one wins; the lookup then reads `d[that key]`. -/
def ciGet (kvs : List (String × Json)) (k : String) : Option Json :=
  match kvs with
  | [] => none
  | (k', v) :: rest =>
    match ciGet rest k with
    | some r => some r
    | none => if lowerStr k' = lowerStr k then some v else none

/-- The original key that `_lkeys(d).get(k.lower())` resolves to (the last
key of the dict whose lower-casing matches), if any. -/
def ciKey (kvs : List (String × Json)) (k : String) : Option String :=
  match kvs with
  | [] => none
  | (k', _) :: rest =>
    match ciKey rest k with
    | some r => some r
    | none => if lowerStr k' = lowerStr k then some k' else none

/-- Replace the value at the entry the `_lkeys` map designates (the last
case-insensitive match); `none` when no key matches. -/
def ciReplace (kvs : List (String × Json)) (k : String) (v : Json) :
    Option (List (String × Json)) :=
  match kvs with
  | [] => none
  | (k', v') :: rest =>
    match ciReplace rest k v with
    | some rest' => some ((k', v') :: rest')
    | none =>
      if lowerStr k' = lowerStr k then some ((k', v) :: rest) else none

/-- `cur[key] = val` with `key = lk.get(last.lower(), last)` as in
`mission._set`: write through the case-insensitive match when one exists,
otherwise create the key literally as given. -/
def ciStore (kvs : List (String × Json)) (k : String) (v : Json) :
    List (String × Json) :=
  match ciReplace kvs k v with
  | some kvs' => kvs'
  | none => kvs ++ [(k, v)]

-- ------------------------------------------------------------------
-- file_manager.py : _merge_preserving_schema
-- ------------------------------------------------------------------

/-- Python `isinstance(x, (str, int, float, bool)) or x is None`
(note `bool` is an `int` subclass in Python, but it is listed anyway). -/
def isPrimLike : Json → Bool
  | Json.str _ => true
  | Json.int _ => true
  | Json.float _ => true
  | Json.bool _ => true
  | Json.null => true
  | _ => false

/-- `x is None`. -/
def isNull : Json → Bool
  | Json.null => true
  | _ => false

/-- Python `type(base) is type(edited)` on scalars: exact runtime-type
identity.  `type(True) is bool`, not `int`, so booleans and integers are
distinct here, as are integers and floats. -/
def sameType : Json → Json → Bool
  | Json.str _, Json.str _ => true
  | Json.int _, Json.int _ => true
  | Json.float _, Json.float _ => true
  | Json.bool _, Json.bool _ => true
  | Json.null, Json.null => true
  | _, _ => false

/-- The tagged-node test of `_merge_preserving_schema`:
`"tag" in base and "value" in base and isinstance(base["tag"], str)`,
returning the tag string and the `value` payload when it holds. -/
def taggedOf (kvs : List (String × Json)) : Option (String × Json) :=
  match lookupKey kvs "tag", lookupKey kvs "value" with
  | some (Json.str tg), some bv => some (tg, bv)
  | _, _ => none

theorem lookupKey_sizeOf {kvs : List (String × Json)} {k : String} {v : Json}
    (h : lookupKey kvs k = some v) : sizeOf v < sizeOf kvs := by
  induction kvs with
  | nil => simp [lookupKey] at h
  | cons hd tl ih =>
    simp only [lookupKey] at h
    split at h
    · cases h; cases hd; simp; omega
    · have := ih h; simp; omega

theorem taggedOf_sizeOf {kvs : List (String × Json)} {tg : String} {bv : Json}
    (h : taggedOf kvs = some (tg, bv)) : sizeOf bv < sizeOf kvs := by
  unfold taggedOf at h
  split at h
  · cases h; exact lookupKey_sizeOf (by assumption)
  · cases h

mutual
/-- `file_manager._merge_preserving_schema(base, edited)`.  Rule order as
in the source: tagged node (merge into `value` only, re-emit `base`'s
`tag`), then dict-on-dict (update only keys already present in `base`),
then list-on-list (element-wise up to the shorter length, never resize),
then scalar-on-scalar (take `edited` only if `base` is `None` or the exact
runtime types agree), else keep `base`. -/
def merge (base edited : Json) : Json :=
  match base with
  | Json.obj kvs =>
    match h : taggedOf kvs with
    | some (tg, bv) =>
      have _hlt : sizeOf bv < sizeOf kvs := taggedOf_sizeOf h
      Json.obj [("tag", Json.str tg), ("value", mergeTagged bv edited)]
    | none =>
      match edited with
      | Json.obj ekvs => Json.obj (mergeObjFold kvs kvs ekvs)
      | _ => Json.obj kvs
  | Json.arr bl =>
    match edited with
    | Json.arr el => Json.arr (mergeArr bl el)
    | _ => Json.arr bl
  | b =>
    if isPrimLike b && isPrimLike edited then
      (if isNull b || sameType b edited then edited else b)
    else b
termination_by (sizeOf base, 0)

/-- The tagged-node rule's payload: `base["value"]` is kept verbatim when
`edited is None`, otherwise the whole `edited` is merged onto it. -/
def mergeTagged (bv edited : Json) : Json :=
  match edited with
  | Json.null => bv
  | _ => merge bv edited
termination_by (sizeOf bv, 1)

/-- The list rule: `out = list(base)` then `out[i] = merge(base[i],
edited[i])` for `i < min(len(base), len(edited))`. -/
def mergeArr (bs es : List Json) : List Json :=
  match bs, es with
  | [], _ => []
  | bs, [] => bs
  | b :: bs', e :: es' => merge b e :: mergeArr bs' es'
termination_by (sizeOf bs, 0)

/-- The dict rule: `out = dict(base)`, then for each `(k, v)` of `edited`
in order, skip `k` when `k not in base`, otherwise
`out[k] = merge(base[k], v)`. -/
def mergeObjFold (bkvs out ekvs : List (String × Json)) :
    List (String × Json) :=
  match ekvs with
  | [] => out
  | (k, ev) :: erest =>
    match h : lookupKey bkvs k with
    | some bv =>
      have _hlt : sizeOf bv < sizeOf bkvs := lookupKey_sizeOf h
      mergeObjFold bkvs (assocReplace out k (merge bv ev)) erest
    | none => mergeObjFold bkvs out erest
termination_by (sizeOf bkvs, 1 + sizeOf ekvs)
end

/-- The key list of a mapping, `none` on a non-mapping. -/
def objKeys : Json → Option (List String)
  | Json.obj kvs => some (kvs.map Prod.fst)
  | _ => none

/-- The element count of a sequence, `none` on a non-sequence. -/
def arrLen : Json → Option Nat
  | Json.arr l => some l.length
  | _ => none

theorem assocReplace_keys (kvs : List (String × Json)) (k : String) (v : Json) :
    (assocReplace kvs k v).map Prod.fst = kvs.map Prod.fst := by
  induction kvs with
  | nil => rfl
  | cons hd tl ih =>
    cases hd with
    | mk k' v' =>
      by_cases h : k' = k <;> simp [assocReplace, h, ih]

theorem mergeObjFold_keys (bkvs : List (String × Json)) :
    ∀ (ekvs out : List (String × Json)),
      (mergeObjFold bkvs out ekvs).map Prod.fst = out.map Prod.fst := by
  intro ekvs
  induction ekvs with
  | nil => intro out; simp [mergeObjFold]
  | cons hd erest ih =>
    intro out
    cases hd with
    | mk k ev =>
      rw [mergeObjFold]
      split
      · rw [ih, assocReplace_keys]
      · exact ih out

theorem mergeArr_length (bs : List Json) :
    ∀ es : List Json, (mergeArr bs es).length = bs.length := by
  induction bs with
  | nil => intro es; rw [mergeArr]
  | cons b bs' ih =>
    intro es
    cases es with
    | nil => simp [mergeArr]
    | cons e es' => rw [mergeArr]; simp [ih]

-- ------------------------------------------------------------------
-- Claims C2, C3, C10 : the schema-preserving merge
-- ------------------------------------------------------------------

/-- C2, counterexample.  The claim says that whenever `edited` has a key
absent from `baseline`, `merge(baseline, edited)` has exactly `baseline`'s
key set, with no baseline key ever removed at any nesting level.  This
fails at a tagged node: a baseline `{"tag": "t", "value": 0, "extra": 5}`
(a mapping with a string `tag`, a `value`, and one more key) merged with
`{"newkey": 1}` (a key absent from the baseline) is rebuilt by the
tagged-node rule as `{"tag": "t", "value": 0}` — the baseline key
`"extra"` is dropped, so the merged key set is NOT the baseline's. -/
theorem merge_keyset_cex :
    merge (Json.obj [("tag", Json.str "t"), ("value", Json.int 0), ("extra", Json.int 5)])
          (Json.obj [("newkey", Json.int 1)])
      = Json.obj [("tag", Json.str "t"), ("value", Json.int 0)] ∧
    objKeys (Json.obj [("tag", Json.str "t"), ("value", Json.int 0), ("extra", Json.int 5)])
      = some ["tag", "value", "extra"] ∧
    objKeys (Json.obj [("newkey", Json.int 1)]) = some ["newkey"] ∧
    (["tag", "value"] : List String) ≠ ["tag", "value", "extra"] := by
  refine ⟨?_, rfl, rfl, by decide⟩
  simp [merge, mergeTagged, mergeObjFold, mergeArr, taggedOf, lookupKey,
    isPrimLike, isNull, sameType]

/-- C2 (amended): for every mapping baseline, the merged result's key set
is the baseline's key set — no key of `edited` is ever added and no
baseline key removed — EXCEPT when the baseline is a tagged node
(`"tag"` present with a string value and `"value"` present): then the
result consists of exactly the two keys `tag` and `value`, dropping any
other baseline key.  Quantified over every baseline and every edited
value, this covers every nesting level of the recursion. -/
theorem merge_keyset_amended (kvs : List (String × Json)) (edited : Json) :
    objKeys (merge (Json.obj kvs) edited) =
      some (if (taggedOf kvs).isSome then ["tag", "value"]
            else kvs.map Prod.fst) := by
  cases edited <;> rw [merge] <;> try (simp; done)
  all_goals split
  all_goals simp_all [objKeys, mergeObjFold_keys]

/-- C3: for every sequence baseline and arbitrary edited value, the merged
sequence has exactly the baseline's length — list-on-list merging runs
element-wise up to `min(len(baseline), len(edited))` on a copy of the
baseline, and any other edited shape leaves the baseline untouched, so the
result never resizes. -/
theorem merge_list_length (bl : List Json) (edited : Json) :
    arrLen (merge (Json.arr bl) edited) = some bl.length := by
  cases edited <;> simp [merge, arrLen, mergeArr_length]

/-- C10: the scalar rule of the merge accepts the edited scalar only under
exact runtime-type identity.  For every non-null scalar baseline and
scalar edited value, the result is `edited` exactly when the runtime
types are identical and the baseline otherwise; since `sameType`
distinguishes booleans from integers from floats (as Python's
`type(x) is type(y)` does), a boolean edit onto an integer baseline — or
an integer edit onto a boolean or float baseline — keeps the baseline. -/
theorem merge_scalar_type_identity (base edited : Json)
    (hb : isPrimLike base = true) (hn : isNull base = false)
    (he : isPrimLike edited = true) :
    merge base edited = if sameType base edited then edited else base := by
  cases base <;> simp_all [merge, isPrimLike, isNull]

/-- Witness for C10 at a concrete input: merging the boolean `True` onto
the integer baseline `1` keeps the integer baseline. -/
theorem merge_scalar_type_identity_witness :
    isPrimLike (Json.int 1) = true ∧ isNull (Json.int 1) = false ∧
    isPrimLike (Json.bool true) = true ∧
    merge (Json.int 1) (Json.bool true) = Json.int 1 :=
  ⟨rfl, rfl, rfl, by simpa [sameType] using
    merge_scalar_type_identity (Json.int 1) (Json.bool true) rfl rfl rfl⟩

-- ------------------------------------------------------------------
-- mission.py : _norm_enum and _retarget_enum_like  (claim C1)
-- ------------------------------------------------------------------

/-- The whitespace set stripped by Python `str.strip()`. -/
def isPySpace (c : Char) : Bool :=
  c = ' ' || c = '\t' || c = '\n' || c = '\r' || c = '\x0b' || c = '\x0c'

/-- `s.strip()`. -/
def pyStrip (cs : List Char) : List Char :=
  ((cs.dropWhile isPySpace).reverse.dropWhile isPySpace).reverse

/-- One left-to-right pass equivalent to `_norm_enum`'s chain
`s.replace("::","_").replace("-","_").replace(" ","_").upper()`: the
replacements insert only underscores (never a new `:`/`-`/space), so the
four passes of the source compose into this single scan. -/
def normEnumChars : List Char → List Char
  | [] => []
  | ':' :: ':' :: rest => '_' :: normEnumChars rest
  | c :: rest =>
    (if c = '-' ∨ c = ' ' then '_' else upperChar c) :: normEnumChars rest

/-- `mission._norm_enum(s)`. -/
def normEnum (s : String) : String :=
  (normEnumChars (pyStrip s.data)).asString

/-- Python `cur.find("E_")`: index of the FIRST occurrence of the
two-character marker, `none` when absent (`-1` in the source). -/
def findEUnderscore : List Char → Option Nat
  | 'E' :: '_' :: _ => some 0
  | _ :: rest => (findEUnderscore rest).map (· + 1)
  | [] => none

/-- `mission._retarget_enum_like(current_raw, canonical_raw)` for string
inputs: normalize both, split the normalized current string at the first
`E_` marker, keep what precedes it (adding a trailing underscore when the
kept part is non-empty and lacks one) and append the normalized canonical
value; with no marker, return the canonical value alone. -/
def retargetEnumLike (currentRaw canonicalRaw : String) : String :=
  let cur := normEnum currentRaw
  let canon := normEnum canonicalRaw
  match findEUnderscore cur.data with
  | some i =>
    let pre := cur.data.take i
    let pre2 := if pre ≠ [] ∧ pre.getLast? ≠ some '_' then pre ++ ['_'] else pre
    (pre2 ++ canon.data).asString
  | none => canon

/-- C1 (code bug): the retarget operation does NOT keep everything before
the last `E_` marker.  `str.find` locates the FIRST occurrence, and
`"ELQUESTSTATE_E_IN_PROGRESS"` already contains `E_` at index 11 (the
final `E` of `ELQUESTSTATE` followed by the separator), so the preserved
prefix is `"ELQUESTSTAT_"` — the code returns
`"ELQUESTSTAT_E_COMPLETE_SUCCESS"`, not the
`"ELQUESTSTATE_E_COMPLETE_SUCCESS"` that both the claim and the
function's own docstring ("Keep the save's prefix (e.g., ELQUESTSTATE_)")
promise.  The claim's second example does hold. -/
theorem retarget_uses_first_marker :
    retargetEnumLike "ELQUESTSTATE_E_IN_PROGRESS" "E_COMPLETE_SUCCESS"
      = "ELQUESTSTAT_E_COMPLETE_SUCCESS" ∧
    retargetEnumLike "ELQUESTSTATE_E_IN_PROGRESS" "E_COMPLETE_SUCCESS"
      ≠ "ELQUESTSTATE_E_COMPLETE_SUCCESS" ∧
    retargetEnumLike "E_INACTIVE" "E_COMPLETE_FAIL" = "E_COMPLETE_FAIL" := by
  refine ⟨by decide, by decide, by decide⟩

-- ------------------------------------------------------------------
-- mission.py : _get / _set  (claim C7)
-- ------------------------------------------------------------------

/-- One descent step of the traversal loops of `mission._get` and
`mission._set`: case-insensitive key lookup on a mapping, the
`0 <= p < len(cur)` bounds-checked integer indexing on a sequence
(`l.get?` is `none` exactly when the index reaches the length), failure on
any other combination. -/
def step : Json → Tok → Option Json
  | Json.obj kvs, Tok.key s => ciGet kvs s
  | Json.arr l, Tok.idx i => if 0 ≤ i then l.get? i.toNat else none
  | _, _ => none

/-- `mission._get(obj, path)`.  Python returns `None` both for a stored
null and for every lookup failure; both are `Json.null` here.  A missing
mapping key sets the cursor to `None` and the loop continues, which is
what the nested `match` reproduces. -/
def getJ : Json → List Tok → Json
  | cur, [] => cur
  | cur, tok :: rest =>
    match cur, tok with
    | Json.obj kvs, Tok.key s =>
      getJ (match ciGet kvs s with | some v => v | none => Json.null) rest
    | Json.arr l, Tok.idx i =>
      match (if 0 ≤ i then l.get? i.toNat else none) with
      | some x => getJ x rest
      | none => Json.null
    | _, _ => Json.null

/-- The terminal write of `mission._set`: on a mapping, write through the
case-insensitive match or create the literal key; on a sequence, write
only when `0 <= last < len(cur)`. -/
def setLast (cur : Json) (last : Tok) (v : Json) : Option Json :=
  match cur, last with
  | Json.obj kvs, Tok.key s => some (Json.obj (ciStore kvs s v))
  | Json.arr l, Tok.idx i =>
    if 0 ≤ i ∧ i.toNat < l.length then some (Json.arr (l.set i.toNat v))
    else none
  | _, _ => none

/-- Re-attach an updated child at the slot `step` read it from.  This is
how the in-place mutation of the Python child object is rendered
functionally; it succeeds exactly when `step` does. -/
def writeBack (cur : Json) (tok : Tok) (c : Json) : Option Json :=
  match cur, tok with
  | Json.obj kvs, Tok.key s => (ciReplace kvs s c).map Json.obj
  | Json.arr l, Tok.idx i =>
    if 0 ≤ i ∧ i.toNat < l.length then some (Json.arr (l.set i.toNat c))
    else none
  | _, _ => none

/-- The body of `mission._set` for a non-empty path `tok :: rest`:
traverse `path[:-1]` (failing on a missing key, an out-of-range or
negative index, a type mismatch, or a `None` intermediate) and then
perform the terminal write.  `none` means the source returned `False`
without mutating anything. -/
def setGo (cur : Json) (tok : Tok) (rest : List Tok) (v : Json) :
    Option Json :=
  match rest with
  | [] => setLast cur tok v
  | tok2 :: rest2 =>
    match step cur tok with
    | some child =>
      match child with
      | Json.null => none
      | _ =>
        match setGo child tok2 rest2 v with
        | some child' => writeBack cur tok child'
        | none => none
    | none => none

/-- `mission._set(obj, path, val)`: the updated tree plus the returned
boolean; an empty path returns `False`, and every failure leaves the tree
untouched. -/
def setJ (t : Json) (path : List Tok) (v : Json) : Json × Bool :=
  match path with
  | [] => (t, false)
  | tok :: rest =>
    match setGo t tok rest v with
    | some t' => (t', true)
    | none => (t, false)

/-- The traversal reaches, at some level, a sequence whose next path token
is an integer that is negative or not below the sequence's length. -/
def hasBadIndex (t : Json) : List Tok → Bool
  | [] => false
  | tok :: rest =>
    (match t, tok with
     | Json.arr l, Tok.idx i => decide (¬(0 ≤ i ∧ i.toNat < l.length))
     | _, _ => false) ||
    (match step t tok with
     | some child => hasBadIndex child rest
     | none => false)

theorem hasBadIndex_null (p : List Tok) : hasBadIndex Json.null p = false := by
  cases p with
  | nil => rfl
  | cons tok rest => cases tok <;> rfl

theorem stepArr_eq_none {l : List Json} {i : Int}
    (h : ¬(0 ≤ i ∧ i.toNat < l.length)) :
    (if 0 ≤ i then l.get? i.toNat else none) = none := by
  by_cases h0 : 0 ≤ i
  · rw [if_pos h0, List.get?_eq_none]
    omega
  · rw [if_neg h0]

theorem stepArr_bad_of_none {l : List Json} {i : Int}
    (h : (if 0 ≤ i then l.get? i.toNat else none) = none) :
    ¬(0 ≤ i ∧ i.toNat < l.length) := by
  by_cases h0 : 0 ≤ i
  · rw [if_pos h0, List.get?_eq_none] at h
    omega
  · intro hc; exact h0 hc.1

theorem hasBadIndex_getJ (p : List Tok) :
    ∀ t : Json, hasBadIndex t p = true → getJ t p = Json.null := by
  induction p with
  | nil => intro t h; simp [hasBadIndex] at h
  | cons tok rest ih =>
    intro t h
    simp only [hasBadIndex, Bool.or_eq_true] at h
    cases t with
    | obj kvs =>
      cases tok with
      | key s =>
        simp only [step] at h
        rcases h with h | h
        · simp at h
        · cases hc : ciGet kvs s with
          | none => rw [hc] at h; simp at h
          | some child =>
            rw [hc] at h
            simp only [getJ, hc]
            exact ih child h
      | idx i => simp [step] at h
    | arr l =>
      cases tok with
      | key s => simp [step] at h
      | idx i =>
        simp only [step] at h
        rcases h with h | h
        · rw [decide_eq_true_eq] at h
          simp only [getJ]
          rw [stepArr_eq_none h]
        · cases hs : (if 0 ≤ i then l.get? i.toNat else none) with
          | none => rw [hs] at h; simp at h
          | some x =>
            rw [hs] at h
            simp only [getJ]
            rw [hs]
            exact ih x h
    | null => cases tok <;> simp [step] at h
    | bool b => cases tok <;> simp [step] at h
    | int n => cases tok <;> simp [step] at h
    | float q => cases tok <;> simp [step] at h
    | str s => cases tok <;> simp [step] at h

theorem hasBadIndex_setGo (p : List Tok) :
    ∀ (t : Json) (tok : Tok) (v : Json),
      hasBadIndex t (tok :: p) = true → setGo t tok p v = none := by
  induction p with
  | nil =>
    intro t tok v h
    simp only [hasBadIndex, Bool.or_eq_true] at h
    cases t with
    | obj kvs =>
      cases tok with
      | key s =>
        simp only [step] at h
        rcases h with h | h
        · simp at h
        · cases hc : ciGet kvs s <;> rw [hc] at h <;> simp at h
      | idx i => simp [step] at h
    | arr l =>
      cases tok with
      | key s => simp [step] at h
      | idx i =>
        simp only [step] at h
        rcases h with h | h
        · rw [decide_eq_true_eq] at h
          simp only [setGo, setLast]
          rw [if_neg h]
        · cases hs : (if 0 ≤ i then l.get? i.toNat else none) <;>
            rw [hs] at h <;> simp at h
    | null => cases tok <;> simp [step] at h
    | bool b => cases tok <;> simp [step] at h
    | int n => cases tok <;> simp [step] at h
    | float q => cases tok <;> simp [step] at h
    | str s => cases tok <;> simp [step] at h
  | cons tok2 rest2 ih =>
    intro t tok v h
    simp only [hasBadIndex, Bool.or_eq_true] at h
    cases t with
    | obj kvs =>
      cases tok with
      | key s =>
        simp only [step] at h
        rcases h with h | h
        · simp at h
        · cases hc : ciGet kvs s with
          | none => rw [hc] at h; simp at h
          | some child =>
            rw [hc] at h
            have hchild := ih child tok2 v h
            simp only [setGo, step, hc]
            cases child <;> simp_all [hasBadIndex_null]
      | idx i => simp [step] at h
    | arr l =>
      cases tok with
      | key s => simp [step] at h
      | idx i =>
        simp only [step] at h
        rcases h with h | h
        · rw [decide_eq_true_eq] at h
          simp only [setGo, step]
          rw [stepArr_eq_none h]
        · cases hs : (if 0 ≤ i then l.get? i.toNat else none) with
          | none => rw [hs] at h; simp at h
          | some x =>
            rw [hs] at h
            have hchild := ih x tok2 v h
            simp only [setGo, step]
            rw [hs]
            cases x <;> simp_all [hasBadIndex_null]
    | null => cases tok <;> simp [step] at h
    | bool b => cases tok <;> simp [step] at h
    | int n => cases tok <;> simp [step] at h
    | float q => cases tok <;> simp [step] at h
    | str s => cases tok <;> simp [step] at h

/-- C7: whenever a path contains, at the level of a sequence, an index
token that is negative or not less than that sequence's length, `_set`
returns `False` and leaves the tree — hence every sequence length in it —
completely unchanged, and `_get` returns the absent value (`None`).
Neither operation ever grows or resizes a sequence on such a path. -/
theorem pathresolver_bad_index (t : Json) (p : List Tok) (v : Json)
    (h : hasBadIndex t p = true) :
    setJ t p v = (t, false) ∧ getJ t p = Json.null := by
  refine ⟨?_, hasBadIndex_getJ p t h⟩
  cases p with
  | nil => simp [hasBadIndex] at h
  | cons tok rest => simp [setJ, hasBadIndex_setGo rest t tok v h]

/-- Witness for C7: index 5 into a one-element sequence fails the write,
keeps the tree, and reads back as absent. -/
theorem pathresolver_bad_index_witness :
    hasBadIndex (Json.arr [Json.int 1]) [Tok.idx 5] = true ∧
    (setJ (Json.arr [Json.int 1]) [Tok.idx 5] (Json.int 0)
        = (Json.arr [Json.int 1], false) ∧
     getJ (Json.arr [Json.int 1]) [Tok.idx 5] = Json.null) :=
  ⟨rfl, pathresolver_bad_index (Json.arr [Json.int 1]) [Tok.idx 5]
    (Json.int 0) rfl⟩

-- ------------------------------------------------------------------
-- cheats.py : _clamp32, _set_int, _set_bool, _set_enum  (claims C8, C9)
-- ------------------------------------------------------------------

/-- `cheats.INT32_MAX = (2**31) - 1`. -/
def INT32MAX : Int := 2 ^ 31 - 1

/-- `cheats._clamp32` on an integer input: `int(v)` is the identity on
integers, so this is `max(0, min(INT32_MAX, v))`. -/
def clamp32 (v : Int) : Int := max 0 (min INT32MAX v)

/-- Decimal digit accumulation for the string case of Python `int(...)`. -/
def parseDigitsGo : List Char → Nat → Option Nat
  | [], acc => some acc
  | c :: rest, acc =>
    if c.isDigit then parseDigitsGo rest (acc * 10 + (c.toNat - 48)) else none

/-- Python `int(x)` as used by the setters' `try: int(...)` guards; `none`
models the call raising.  Booleans are integers (`int(True) == 1`), floats
truncate toward zero, strings parse as optionally signed decimals with
surrounding whitespace (digit-group underscores are not modelled — no
caller of this code feeds them). -/
def pyInt : Json → Option Int
  | Json.int n => some n
  | Json.bool b => some (if b then 1 else 0)
  | Json.float q => some (Int.tdiv q.num (q.den : Int))
  | Json.str s =>
    (match pyStrip s.data with
     | '+' :: rest =>
       if rest.isEmpty then none else (parseDigitsGo rest 0).map Int.ofNat
     | '-' :: rest =>
       if rest.isEmpty then none
       else (parseDigitsGo rest 0).map (fun n => -(n : Int))
     | [] => none
     | cs => (parseDigitsGo cs 0).map Int.ofNat)
  | _ => none

/-- Python truthiness, for the `or 0` fallbacks. -/
def falsy : Json → Bool
  | Json.null => true
  | Json.bool b => !b
  | Json.int n => decide (n = 0)
  | Json.float q => decide (q = 0)
  | Json.str s => decide (s = "")
  | Json.arr l => l.isEmpty
  | Json.obj l => l.isEmpty

/-- `try: cur = int(node.get(slot) or 0) except Exception: cur = 0` applied
to the slot's stored value. -/
def curInt (v : Json) : Int :=
  match pyInt (if falsy v then Json.int 0 else v) with
  | some n => n
  | none => 0

/-- The `{"data": {"Other": <name>}}` tag payload the setters write. -/
def otherTag (s : String) : Json :=
  Json.obj [("data", Json.obj [("Other", Json.str s)])]

/-- `cheats._set_int(node, value, apply=apply)`, returning the updated node
and the reported change flag.  Prefers rewriting an existing `Int` slot,
then an existing `Int64` slot, else creates `Int`; the written value is
always the clamped one and the matching tag is rewritten. -/
def setIntNode (node : List (String × Json)) (value : Int) (apply : Bool) :
    List (String × Json) × Bool :=
  let v := clamp32 value
  match lookupKey node "Int" with
  | some cur =>
    if curInt cur = v then (node, false)
    else if apply then
      (dictStore (dictStore node "Int" (Json.int v)) "tag"
        (otherTag "IntProperty"), true)
    else (node, true)
  | none =>
    match lookupKey node "Int64" with
    | some cur =>
      if curInt cur = v then (node, false)
      else if apply then
        (dictStore (dictStore node "Int64" (Json.int v)) "tag"
          (otherTag "Int64Property"), true)
      else (node, true)
    | none =>
      if apply then
        (dictStore (dictStore node "Int" (Json.int v)) "tag"
          (otherTag "IntProperty"), true)
      else (node, true)

/-- `cheats._set_bool(node, value, apply=apply)`: Python compares
`node.get("Bool", None) is value`, which holds exactly when the stored
object is the requested boolean singleton. -/
def setBoolNode (node : List (String × Json)) (value : Bool) (apply : Bool) :
    List (String × Json) × Bool :=
  let same : Bool :=
    match lookupKey node "Bool" with
    | some (Json.bool b) => b = value
    | _ => false
  if same then (node, false)
  else if apply then
    (dictSetdefault (dictStore node "Bool" (Json.bool value)) "tag"
      (otherTag "BoolProperty"), true)
  else (node, true)

/-- `"::" in enum_value`. -/
def containsColonColon : List Char → Bool
  | ':' :: ':' :: _ => true
  | _ :: rest => containsColonColon rest
  | [] => false

/-- `cheats._set_enum(node, enum_type, enum_value, apply=apply)`: build the
canonical `Type::Value` string (keeping a caller-supplied namespace as is)
and count a change exactly when the stored string differs. -/
def setEnumNode (node : List (String × Json)) (etype evalue : String)
    (apply : Bool) : List (String × Json) × Bool :=
  let target :=
    if containsColonColon evalue.data then evalue
    else etype ++ "::" ++ evalue
  let same : Bool :=
    match lookupKey node "Enum" with
    | some (Json.str s) => s = target
    | _ => false
  if same then (node, false)
  else if apply then
    (dictStore (dictStore node "Enum" (Json.str target)) "tag"
      (Json.obj [("data",
        Json.obj [("Enum", Json.arr [Json.str etype, Json.null])])]), true)
  else (node, true)

theorem lookupKey_assocReplace_self {kvs : List (String × Json)}
    {k : String} {v₀ : Json} (h : lookupKey kvs k = some v₀) (v : Json) :
    lookupKey (assocReplace kvs k v) k = some v := by
  induction kvs with
  | nil => simp [lookupKey] at h
  | cons hd tl ih =>
    cases hd with
    | mk k' v' =>
      by_cases hk : k' = k
      · simp [assocReplace, hk, lookupKey]
      · simp only [lookupKey, if_neg hk] at h
        simp only [assocReplace, if_neg hk, lookupKey]
        exact ih h

theorem lookupKey_assocReplace_ne (kvs : List (String × Json))
    {k k' : String} (v : Json) (h : k' ≠ k) :
    lookupKey (assocReplace kvs k v) k' = lookupKey kvs k' := by
  induction kvs with
  | nil => rfl
  | cons hd tl ih =>
    cases hd with
    | mk k₀ v₀ =>
      by_cases hk : k₀ = k
      · subst hk
        simp only [assocReplace, if_pos rfl, lookupKey]
        rw [if_neg (fun hh => h hh.symm), if_neg (fun hh => h hh.symm)]
      · simp [assocReplace, hk, lookupKey, ih]

theorem lookupKey_append_one_ne (kvs : List (String × Json)) {k k' : String}
    (v : Json) (h : k' ≠ k) :
    lookupKey (kvs ++ [(k, v)]) k' = lookupKey kvs k' := by
  induction kvs with
  | nil =>
    simp only [List.nil_append, lookupKey]
    rw [if_neg (fun hh => h hh.symm)]
  | cons hd tl ih =>
    cases hd with
    | mk k₀ v₀ => simp [lookupKey, ih]

theorem lookupKey_append_one_self (kvs : List (String × Json)) {k : String}
    (v : Json) (h : lookupKey kvs k = none) :
    lookupKey (kvs ++ [(k, v)]) k = some v := by
  induction kvs with
  | nil => simp [lookupKey]
  | cons hd tl ih =>
    cases hd with
    | mk k₀ v₀ =>
      simp only [lookupKey] at h
      split at h
      · cases h
      · next hk =>
        simp only [List.cons_append, lookupKey, if_neg hk]
        exact ih h

theorem lookupKey_dictStore_self (kvs : List (String × Json)) (k : String)
    (v : Json) : lookupKey (dictStore kvs k v) k = some v := by
  unfold dictStore
  cases h : lookupKey kvs k with
  | some v₀ => exact lookupKey_assocReplace_self h v
  | none => exact lookupKey_append_one_self kvs v h

theorem lookupKey_dictStore_ne (kvs : List (String × Json)) {k k' : String}
    (v : Json) (h : k' ≠ k) :
    lookupKey (dictStore kvs k v) k' = lookupKey kvs k' := by
  unfold dictStore
  cases hl : lookupKey kvs k with
  | some v₀ => exact lookupKey_assocReplace_ne kvs v h
  | none => exact lookupKey_append_one_ne kvs v h

theorem curInt_int (k : Int) : curInt (Json.int k) = k := by
  by_cases h : k = 0 <;> simp [curInt, falsy, pyInt, h]

/-- The numeric slot `_set_int` targets: the `Int` member when present,
otherwise the `Int64` member. -/
def intSlot (node : List (String × Json)) : Option Json :=
  match lookupKey node "Int" with
  | some v => some v
  | none => lookupKey node "Int64"

/-- The targeted numeric slot, when present, holds an actual integer — the
wire shape of `IntProperty`/`Int64Property` nodes. -/
def intSlotTyped (node : List (String × Json)) : Bool :=
  match intSlot node with
  | some (Json.int _) => true
  | some _ => false
  | none => true

/-- C8: for every integer `v` and every node whose numeric slot (if any)
holds an integer, applying the integer setter leaves
`max(0, min(2^31 − 1, v))` in the targeted `Int` (or `Int64`) slot, a
value that always lies in `[0, 2^31 − 1]`. -/
theorem set_int_clamps (node : List (String × Json)) (v : Int)
    (h : intSlotTyped node = true) :
    intSlot (setIntNode node v true).1 = some (Json.int (clamp32 v)) ∧
    clamp32 v = max 0 (min (2 ^ 31 - 1) v) ∧
    0 ≤ clamp32 v ∧ clamp32 v ≤ 2 ^ 31 - 1 := by
  have hrange : 0 ≤ clamp32 v ∧ clamp32 v ≤ 2 ^ 31 - 1 := by
    unfold clamp32 INT32MAX; omega
  refine ⟨?_, rfl, hrange.1, hrange.2⟩
  cases hI : lookupKey node "Int" with
  | some cur =>
    have hcur : ∃ k : Int, cur = Json.int k := by
      unfold intSlotTyped intSlot at h
      rw [hI] at h
      cases cur <;> simp_all
    obtain ⟨k, rfl⟩ := hcur
    simp only [setIntNode, hI, curInt_int]
    by_cases hk : k = clamp32 v
    · rw [if_pos hk]
      simp only [intSlot, hI, hk]
    · rw [if_neg hk]
      have h1 : lookupKey
          (dictStore (dictStore node "Int" (Json.int (clamp32 v))) "tag"
            (otherTag "IntProperty")) "Int" = some (Json.int (clamp32 v)) := by
        rw [lookupKey_dictStore_ne _ _ (by decide), lookupKey_dictStore_self]
      simp [intSlot, h1]
  | none =>
    cases hI64 : lookupKey node "Int64" with
    | some cur =>
      have hcur : ∃ k : Int, cur = Json.int k := by
        unfold intSlotTyped intSlot at h
        rw [hI, hI64] at h
        cases cur <;> simp_all
      obtain ⟨k, rfl⟩ := hcur
      simp only [setIntNode, hI, hI64, curInt_int]
      by_cases hk : k = clamp32 v
      · rw [if_pos hk]
        simp only [intSlot, hI, hI64, hk]
      · rw [if_neg hk]
        have h1 : lookupKey
            (dictStore (dictStore node "Int64" (Json.int (clamp32 v))) "tag"
              (otherTag "Int64Property")) "Int" = none := by
          rw [lookupKey_dictStore_ne _ _ (by decide),
            lookupKey_dictStore_ne _ _ (by decide), hI]
        have h2 : lookupKey
            (dictStore (dictStore node "Int64" (Json.int (clamp32 v))) "tag"
              (otherTag "Int64Property")) "Int64"
            = some (Json.int (clamp32 v)) := by
          rw [lookupKey_dictStore_ne _ _ (by decide), lookupKey_dictStore_self]
        simp [intSlot, h1, h2]
    | none =>
      simp only [setIntNode, hI, hI64]
      have h1 : lookupKey
          (dictStore (dictStore node "Int" (Json.int (clamp32 v))) "tag"
            (otherTag "IntProperty")) "Int" = some (Json.int (clamp32 v)) := by
        rw [lookupKey_dictStore_ne _ _ (by decide), lookupKey_dictStore_self]
      simp [intSlot, h1]

/-- Witness for C8: on a node whose `Int` slot holds 3, setting `2 ^ 40`
stores the clamped maximum. -/
theorem set_int_clamps_witness :
    intSlotTyped [("Int", Json.int 3)] = true ∧
    (intSlot (setIntNode [("Int", Json.int 3)] (2 ^ 40) true).1
        = some (Json.int (clamp32 (2 ^ 40))) ∧
     clamp32 (2 ^ 40) = max 0 (min (2 ^ 31 - 1) (2 ^ 40)) ∧
     0 ≤ clamp32 (2 ^ 40) ∧ clamp32 (2 ^ 40) ≤ 2 ^ 31 - 1) :=
  ⟨rfl, set_int_clamps [("Int", Json.int 3)] (2 ^ 40) rfl⟩

/-- C9: each typed setter — integer, boolean, enum — called with
`apply=false` returns the node completely unchanged and reports exactly
the boolean that the same call with `apply=true` reports, so dry-run
change counts equal real change counts. -/
theorem setters_dry_run_parity (node : List (String × Json)) (iv : Int)
    (bv : Bool) (etype evalue : String) :
    (setIntNode node iv false).1 = node ∧
    (setIntNode node iv false).2 = (setIntNode node iv true).2 ∧
    (setBoolNode node bv false).1 = node ∧
    (setBoolNode node bv false).2 = (setBoolNode node bv true).2 ∧
    (setEnumNode node etype evalue false).1 = node ∧
    (setEnumNode node etype evalue false).2
      = (setEnumNode node etype evalue true).2 := by
  refine ⟨?_, ?_, ?_, ?_, ?_, ?_⟩ <;>
    simp only [setIntNode, setBoolNode, setEnumNode] <;>
    (repeat' split) <;> simp_all

-- ------------------------------------------------------------------
-- mission.py : _WRAPPER_KEYS and _unwrap  (claim C6)
-- ------------------------------------------------------------------

/-- The members of `mission._WRAPPER_KEYS = {"struct", "data", "value",
"tag"}`.  This is a Python SET literal of strings: its iteration order is
hash-seed dependent and unspecified, so every function that iterates over
it takes the enumeration order as an explicit parameter `ord`. -/
def wrapperKeyMembers : List String := ["struct", "data", "value", "tag"]

/-- One pass of `_unwrap`'s generic-wrapper loop:
`for want in _WRAPPER_KEYS: wk = lk.get(want); if wk and
isinstance(cur[wk], (dict, list)): cur = cur[wk]; ... break` — the value
descended into, for iteration order `ord`. -/
def wrapperSelect (ord : List String) (kvs : List (String × Json)) :
    Option Json :=
  match ord with
  | [] => none
  | w :: rest =>
    match ciGet kvs w with
    | some (Json.obj kvs') => some (Json.obj kvs')
    | some (Json.arr l) => some (Json.arr l)
    | _ => wrapperSelect rest kvs

/-- Key `w` is present (case-insensitively) with a mapping- or
sequence-typed value — the loop's descent condition. -/
def applicableWrapper (kvs : List (String × Json)) (w : String) : Bool :=
  match ciGet kvs w with
  | some (Json.obj _) => true
  | some (Json.arr _) => true
  | _ => false

/-- `mission._unwrap(node, max_depth)` with the set-iteration order of
`_WRAPPER_KEYS` as `ord` and the remaining depth budget as `fuel`.  Array
nodes take priority (`Array → Struct → value`, then `Array → value`, else
descend into the Array dict); with no usable Array key the generic wrapper
keys are tried in `ord`; last comes the source's explicit `Struct` descent
(dead code whenever `"struct" ∈ ord`, kept to mirror the source). -/
def unwrapGo (ord : List String) : Json → Nat → Json
  | cur, 0 => cur
  | Json.obj kvs, fuel + 1 =>
    (match ciGet kvs "array" with
     | some (Json.obj akvs) =>
       (match
          (match ciGet akvs "struct" with
           | some (Json.obj skvs) =>
             (match ciGet skvs "value" with
              | some (Json.arr l) => some (Json.arr l)
              | _ => none)
           | _ => none) with
        | some r => r
        | none =>
          (match ciGet akvs "value" with
           | some (Json.arr l) => Json.arr l
           | _ => unwrapGo ord (Json.obj akvs) fuel))
     | _ =>
       (match wrapperSelect ord kvs with
        | some next => unwrapGo ord next fuel
        | none =>
          (match ciGet kvs "struct" with
           | some (Json.obj skvs) => unwrapGo ord (Json.obj skvs) fuel
           | some (Json.arr l) => unwrapGo ord (Json.arr l) fuel
           | _ => Json.obj kvs)))
  | cur, _ + 1 => cur

/-- `mission._unwrap(node)` with its default `max_depth = 12`. -/
def unwrap (ord : List String) (node : Json) : Json :=
  unwrapGo ord node 12

theorem wrapperSelect_none (ord : List String)
    (kvs : List (String × Json))
    (h : ∀ w ∈ ord, applicableWrapper kvs w = false) :
    wrapperSelect ord kvs = none := by
  induction ord with
  | nil => rfl
  | cons w0 rest ih =>
    have h0 := h w0 (by simp)
    rw [wrapperSelect]
    cases hg : ciGet kvs w0 with
    | none => exact ih (fun w hw => h w (by simp [hw]))
    | some v =>
      have hrest := ih (fun w hw => h w (by simp [hw]))
      cases v <;> simp_all [applicableWrapper]

theorem wrapperSelect_finds (ord : List String)
    (kvs : List (String × Json)) {w : String} (hw : w ∈ ord)
    (ha : applicableWrapper kvs w = true) :
    ∃ w', w' ∈ ord ∧ applicableWrapper kvs w' = true ∧
      wrapperSelect ord kvs = ciGet kvs w' := by
  induction ord with
  | nil => cases hw
  | cons w0 rest ih =>
    by_cases h0 : applicableWrapper kvs w0 = true
    · refine ⟨w0, by simp, h0, ?_⟩
      rw [wrapperSelect]
      unfold applicableWrapper at h0
      cases hg : ciGet kvs w0 with
      | none => rw [hg] at h0; cases h0
      | some v => cases v <;> rw [hg] at h0 <;> first | rfl | cases h0
    · have hw' : w ∈ rest := by
        rcases List.mem_cons.mp hw with h | h
        · subst h; exact absurd ha h0
        · exact h
      obtain ⟨w', hmem, ha', heq⟩ := ih hw'
      refine ⟨w', by simp [hmem], ha', ?_⟩
      rw [wrapperSelect]
      unfold applicableWrapper at h0
      cases hg : ciGet kvs w0 with
      | none => exact heq
      | some v => cases v <;> rw [hg] at h0 <;> first | exact heq | cases h0 rfl

/-- C6 (amended): the generic-wrapper descent tries the members of the
set `{struct, data, value, tag}` in an UNSPECIFIED iteration order, not
in a fixed `Struct, value, data, tag` priority.  The choice is a
deterministic function of the node alone only when the applicable wrapper
keys (present case-insensitively with a container value) all select the
same child — in particular when at most one is applicable: then every
enumeration order of the same key set descends into that same child. -/
theorem wrapper_order_amended (kvs : List (String × Json))
    (ord₁ ord₂ : List String)
    (hmem : ∀ w : String, w ∈ ord₁ ↔ w ∈ ord₂)
    (huniq : ∀ w₁ w₂ : String, applicableWrapper kvs w₁ = true →
      applicableWrapper kvs w₂ = true → ciGet kvs w₁ = ciGet kvs w₂) :
    wrapperSelect ord₁ kvs = wrapperSelect ord₂ kvs := by
  by_cases hex : ∃ w ∈ ord₁, applicableWrapper kvs w = true
  · obtain ⟨w, hw, ha⟩ := hex
    obtain ⟨w₁, _, ha₁, he₁⟩ := wrapperSelect_finds ord₁ kvs hw ha
    obtain ⟨w₂, _, ha₂, he₂⟩ :=
      wrapperSelect_finds ord₂ kvs ((hmem w).mp hw) ha
    rw [he₁, he₂]
    exact huniq w₁ w₂ ha₁ ha₂
  · push_neg at hex
    rw [wrapperSelect_none ord₁ kvs
        (fun w hw => by simpa using hex w hw),
      wrapperSelect_none ord₂ kvs
        (fun w hw => by simpa using hex w ((hmem w).mpr hw))]

/-- C6, counterexample: on the mapping
`{"value": {"a": null}, "data": {"b": null}}` (no `Array` key, two
applicable wrapper keys) two legitimate enumeration orders of the same
wrapper-key set descend into different children, so the descent is not a
deterministic function of the node alone, and no fixed
`Struct, value, data, tag` priority is implemented. -/
theorem wrapper_order_cex :
    wrapperSelect ["struct", "value", "data", "tag"]
        [("value", Json.obj [("a", Json.null)]),
         ("data", Json.obj [("b", Json.null)])]
      = some (Json.obj [("a", Json.null)]) ∧
    wrapperSelect ["data", "tag", "struct", "value"]
        [("value", Json.obj [("a", Json.null)]),
         ("data", Json.obj [("b", Json.null)])]
      = some (Json.obj [("b", Json.null)]) ∧
    (∀ w : String, w ∈ ["struct", "value", "data", "tag"] ↔
      w ∈ ["data", "tag", "struct", "value"]) ∧
    some (Json.obj [("a", Json.null)]) ≠ some (Json.obj [("b", Json.null)]) := by
  refine ⟨rfl, rfl, ?_, by simp⟩
  intro w
  constructor <;> (intro h; simp only [List.mem_cons] at h ⊢; tauto)

/-- Witness for C6 (amended) at a concrete input: with only `value`
applicable, both enumeration orders descend into it. -/
theorem wrapper_order_amended_witness :
    (∀ w : String, w ∈ ["struct", "value", "data", "tag"] ↔
      w ∈ ["data", "tag", "struct", "value"]) ∧
    (∀ w₁ w₂ : String,
      applicableWrapper [("value", Json.obj [("a", Json.null)])] w₁ = true →
      applicableWrapper [("value", Json.obj [("a", Json.null)])] w₂ = true →
      ciGet [("value", Json.obj [("a", Json.null)])] w₁
        = ciGet [("value", Json.obj [("a", Json.null)])] w₂) ∧
    wrapperSelect ["struct", "value", "data", "tag"]
        [("value", Json.obj [("a", Json.null)])]
      = wrapperSelect ["data", "tag", "struct", "value"]
        [("value", Json.obj [("a", Json.null)])] := by
  have hmem : ∀ w : String, w ∈ ["struct", "value", "data", "tag"] ↔
      w ∈ ["data", "tag", "struct", "value"] := by
    intro w
    constructor <;> (intro h; simp only [List.mem_cons] at h ⊢; tauto)
  have huniq : ∀ w₁ w₂ : String,
      applicableWrapper [("value", Json.obj [("a", Json.null)])] w₁ = true →
      applicableWrapper [("value", Json.obj [("a", Json.null)])] w₂ = true →
      ciGet [("value", Json.obj [("a", Json.null)])] w₁
        = ciGet [("value", Json.obj [("a", Json.null)])] w₂ := by
    intro w₁ w₂ h₁ h₂
    simp only [applicableWrapper] at h₁ h₂
    simp only [ciGet] at h₁ h₂ ⊢
    split at h₁ <;> split at h₂ <;> simp_all
  exact ⟨hmem, huniq,
    wrapper_order_amended _ _ _ hmem huniq⟩

-- ------------------------------------------------------------------
-- mission.py : _deep_candidate_scan / _find_quest_array_and_path (claim C5)
-- ------------------------------------------------------------------

/-- The state-like keys probed by `_deep_candidate_scan.looks_like_quest`
(written lowercase in the source). -/
def scanStateKeys : List String :=
  ["queststate_0", "state", "queststate", "equeststate", "quest_state_0"]

/-- Its name/code-like keys. -/
def scanNameKeys : List String :=
  ["questcodename_0", "questname_0", "name", "codename", "questid_0",
   "questid"]

/-- `k in lk`: some key of the mapping lower-cases to `k`. -/
def hasKeyCI (kvs : List (String × Json)) (k : String) : Bool :=
  (ciGet kvs k).isSome

/-- `looks_like_quest(elem)`: unwrap the element; accept when its mapping
carries at least one state-like key OR at least one name/code-like key —
the source has two independent early-`return True` loops, so either key
family alone suffices. -/
def looksLikeQuest (ord : List String) (elem : Json) : Bool :=
  match unwrap ord elem with
  | Json.obj kvs =>
    scanStateKeys.any (fun k => hasKeyCI kvs k) ||
    scanNameKeys.any (fun k => hasKeyCI kvs k)
  | _ => false

/-- The last case-insensitive match together with its original key — what
`lk = _lkeys(d); lk.get(k)` hands back alongside `d[lk[k]]`. -/
def ciEntry (kvs : List (String × Json)) (k : String) :
    Option (String × Json) :=
  match kvs with
  | [] => none
  | (k', v) :: rest =>
    match ciEntry rest k with
    | some r => some r
    | none => if lowerStr k' = lowerStr k then some (k', v) else none

mutual
/-- `_deep_candidate_scan.walk(n, p)`: record every non-empty list whose
first element looks like a quest, then recurse into mapping values (keys
in order, original key appended to the path) and into list elements (index
appended); hits accumulate in DFS pre-order exactly as the source's
`hits.append` does. -/
def deepScanWalk (ord : List String) (n : Json) (p : List Tok) :
    List (List Tok × List Json × String) :=
  (match n with
   | Json.arr (x :: xs) =>
     if looksLikeQuest ord x then [(p, x :: xs, "deep-scan")] else []
   | _ => []) ++
  (match n with
   | Json.obj kvs => deepScanObj ord kvs p
   | Json.arr l => deepScanArr ord l p 0
   | _ => [])
termination_by structural n

/-- `for k, v in n.items(): walk(v, p + [k])`. -/
def deepScanObj (ord : List String) (kvs : List (String × Json))
    (p : List Tok) : List (List Tok × List Json × String) :=
  match kvs with
  | [] => []
  | (k, v) :: rest =>
    deepScanWalk ord v (p ++ [Tok.key k]) ++ deepScanObj ord rest p
termination_by structural kvs

/-- `for i, v in enumerate(n): walk(v, p + [i])`. -/
def deepScanArr (ord : List String) (l : List Json) (p : List Tok)
    (i : Nat) : List (List Tok × List Json × String) :=
  match l with
  | [] => []
  | v :: rest =>
    deepScanWalk ord v (p ++ [Tok.idx (Int.ofNat i)]) ++
      deepScanArr ord rest p (i + 1)
termination_by structural l
end

/-- `mission._deep_candidate_scan(node, base)`. -/
def deepCandidateScan (ord : List String) (node : Json)
    (base : List Tok) : List (List Tok × List Json × String) :=
  deepScanWalk ord node base

/-- `candidates.sort(key=lambda t: len(t[1]), reverse=True)` followed by
taking element 0: Python's sort is stable, so the chosen candidate is the
FIRST one whose element list has maximal length. -/
def pickBest : List (List Tok × List Json × String) →
    Option (List Tok × List Json × String)
  | [] => none
  | c :: rest =>
    match pickBest rest with
    | none => some c
    | some best =>
      if best.2.1.length > c.2.1.length then some best else some c

/-- `_quest_root_dict(data)`: `data["root"]["properties"]` via exact
`.get` lookups, then the first of four alias keys found
case-insensitively, returning the value and the original key. -/
def questAliasGo (pkvs : List (String × Json)) :
    List String → Option (Json × String)
  | [] => none
  | k :: rest =>
    match ciEntry pkvs k with
    | some (orig, v) => some (v, orig)
    | none => questAliasGo pkvs rest

def questRootDict (data : Json) : Option (Json × String) :=
  match data with
  | Json.obj kvs =>
    (match lookupKey kvs "root" with
     | some (Json.obj rkvs) =>
       (match lookupKey rkvs "properties" with
        | some (Json.obj pkvs) =>
          questAliasGo pkvs
            ["questsavedata_0", "questsavedata", "quest_save_data_0",
             "quest_save_data"]
        | _ => none)
     | _ => none)
  | _ => none

/-- The `for _ in range(3)` descent through nested `Struct` wrappers of
`_find_quest_array_and_path_standard` (a non-mapping cursor makes the
remaining iterations no-ops, so the recursion just stops there). -/
def descendStructs : Json → List Tok → Nat → Json × List Tok
  | cur, path, 0 => (cur, path)
  | Json.obj kvs, path, n + 1 =>
    (match ciEntry kvs "struct" with
     | some (orig, Json.obj v) =>
       descendStructs (Json.obj v) (path ++ [Tok.key orig]) n
     | some (orig, Json.arr v) =>
       descendStructs (Json.arr v) (path ++ [Tok.key orig]) n
     | _ => (Json.obj kvs, path))
  | cur, path, _ + 1 => (cur, path)

/-- `lk.get("questlist_0") or lk.get("questlist") or lk.get("quests") or
lk.get("storyquests")`: the first alias present (original keys are
non-empty strings, hence truthy). -/
def questListEntry (kvs : List (String × Json)) : Option (String × Json) :=
  match ciEntry kvs "questlist_0" with
  | some e => some e
  | none =>
    match ciEntry kvs "questlist" with
    | some e => some e
    | none =>
      match ciEntry kvs "quests" with
      | some e => some e
      | none => ciEntry kvs "storyquests"

/-- The `Array → Struct → value` / `Array → value` extraction of the
standard finder, with the relative path inside the Array dict and the
diagnostic string. -/
def arrayPayload (akvs : List (String × Json)) :
    Option (List Json × List Tok × String) :=
  match
    (match ciEntry akvs "struct" with
     | some (sorig, Json.obj skvs) =>
       (match ciEntry skvs "value" with
        | some (vorig, Json.arr l) =>
          some (l, [Tok.key sorig, Tok.key vorig], "Array.Struct.value")
        | _ => none)
     | _ => none) with
  | some r => some r
  | none =>
    match ciEntry akvs "value" with
    | some (vorig, Json.arr l) => some (l, [Tok.key vorig], "Array.value")
    | _ => none

/-- `_find_quest_array_and_path_standard(data)`: known-path attempt — quest
root dict, up to three `Struct` descents, an optional quest-list alias hop
(dict-valued only), the Array extraction (note the Array key is appended
to the path even when the extraction then fails), and finally a generic
`_unwrap` of the quest root if it yields a list. -/
def findStandard (ord : List String) (data : Json) :
    Option (List Json × List Tok × String) :=
  match questRootDict data with
  | none => none
  | some (qsd, qkey) =>
    match qsd with
    | Json.obj qkvs =>
      let path0 : List Tok :=
        [Tok.key "root", Tok.key "properties", Tok.key qkey]
      let s1 := descendStructs (Json.obj qkvs) path0 3
      let s2 :=
        match s1.1 with
        | Json.obj kvs =>
          (match questListEntry kvs with
           | some (orig, Json.obj v) => (Json.obj v, s1.2 ++ [Tok.key orig])
           | _ => s1)
        | _ => s1
      let s3 :=
        match s2.1 with
        | Json.obj kvs2 =>
          (match ciEntry kvs2 "array" with
           | some (aorig, Json.obj akvs) =>
             (match arrayPayload akvs with
              | some (l, relp, how) =>
                Sum.inl (l, s2.2 ++ [Tok.key aorig] ++ relp, how)
              | none => Sum.inr (s2.2 ++ [Tok.key aorig]))
           | _ => Sum.inr s2.2)
        | _ => Sum.inr s2.2
      (match s3 with
       | Sum.inl r => some r
       | Sum.inr path =>
         match unwrap ord (Json.obj qkvs) with
         | Json.arr l => some (l, path, "generic unwrap")
         | _ => none)
    | _ => none

/-- The deep-scan fallback of `_find_quest_array_and_path`: scan
`data["root"]`, rank candidates, and return the longest one. -/
def findQuestFallback (ord : List String) (data : Json) :
    Option (List Json × List Tok × String) :=
  match data with
  | Json.obj kvs =>
    (match lookupKey kvs "root" with
     | some (Json.obj rkvs) =>
       (match
          pickBest (deepCandidateScan ord (Json.obj rkvs) [Tok.key "root"])
        with
        | some (p, l, _) => some (l, p, "deep-scan")
        | none => none)
     | _ => none)
  | _ => none

/-- `mission._find_quest_array_and_path(data)`: use the standard result
when it is a non-empty list, otherwise fall back to the deep scan. -/
def findQuestArray (ord : List String) (data : Json) :
    Option (List Json × List Tok × String) :=
  match findStandard ord data with
  | some (l, p, how) =>
    if l.isEmpty then findQuestFallback ord data else some (l, p, how)
  | none => findQuestFallback ord data

theorem pickBest_eq_none {cs : List (List Tok × List Json × String)}
    (h : pickBest cs = none) : cs = [] := by
  cases cs with
  | nil => rfl
  | cons c rest =>
    exfalso
    rw [pickBest] at h
    split at h
    · cases h
    · split at h <;> cases h

theorem pickBest_spec (cs : List (List Tok × List Json × String)) :
    ∀ c, pickBest cs = some c →
      c ∈ cs ∧ ∀ d ∈ cs, d.2.1.length ≤ c.2.1.length := by
  induction cs with
  | nil => intro c h; simp [pickBest] at h
  | cons c0 rest ih =>
    intro c h
    rw [pickBest] at h
    split at h
    · rename_i hb
      have hrest := pickBest_eq_none hb
      subst hrest
      cases h
      exact ⟨by simp, by simp⟩
    · rename_i best hb
      obtain ⟨hmem, hbound⟩ := ih best hb
      split at h <;> cases h
      · rename_i hgt
        refine ⟨List.mem_cons_of_mem _ hmem, ?_⟩
        intro d hd
        rcases List.mem_cons.mp hd with hd | hd
        · subst hd; omega
        · exact hbound d hd
      · rename_i hle
        refine ⟨by simp, ?_⟩
        intro d hd
        rcases List.mem_cons.mp hd with hd | hd
        · subst hd; omega
        · have := hbound d hd; omega

theorem deepScanObj_sound_aux (ord : List String)
    (kvs : List (String × Json))
    (IH : ∀ v, (∃ k, (k, v) ∈ kvs) → ∀ (p : List Tok)
      (hit : List Tok × List Json × String), hit ∈ deepScanWalk ord v p →
      ∃ x xs, hit.2.1 = x :: xs ∧ looksLikeQuest ord x = true) :
    ∀ (p : List Tok) (hit : List Tok × List Json × String),
      hit ∈ deepScanObj ord kvs p →
      ∃ x xs, hit.2.1 = x :: xs ∧ looksLikeQuest ord x = true := by
  induction kvs with
  | nil => intro p hit hm; simp [deepScanObj] at hm
  | cons hd tl ihk =>
    intro p hit hm
    cases hd with
    | mk k v =>
      rw [deepScanObj] at hm
      rcases List.mem_append.mp hm with h | h
      · exact IH v ⟨k, by simp⟩ _ hit h
      · exact ihk (fun v' hv' p' hit' hm' =>
          IH v' (by obtain ⟨k', hk'⟩ := hv'; exact ⟨k', by simp [hk']⟩)
            p' hit' hm') p hit h

theorem deepScanArr_sound_aux (ord : List String) (l : List Json)
    (IH : ∀ v ∈ l, ∀ (p : List Tok)
      (hit : List Tok × List Json × String), hit ∈ deepScanWalk ord v p →
      ∃ x xs, hit.2.1 = x :: xs ∧ looksLikeQuest ord x = true) :
    ∀ (p : List Tok) (i0 : Nat) (hit : List Tok × List Json × String),
      hit ∈ deepScanArr ord l p i0 →
      ∃ x xs, hit.2.1 = x :: xs ∧ looksLikeQuest ord x = true := by
  induction l with
  | nil => intro p i0 hit hm; simp [deepScanArr] at hm
  | cons x xs ihl =>
    intro p i0 hit hm
    rw [deepScanArr] at hm
    rcases List.mem_append.mp hm with h | h
    · exact IH x (by simp) _ hit h
    · exact ihl (fun v hv p' hit' hm' => IH v (by simp [hv]) p' hit' hm')
        p (i0 + 1) hit h

theorem deepScan_sound_aux (ord : List String) :
    ∀ (N : Nat) (n : Json), sizeOf n ≤ N → ∀ (p : List Tok)
      (hit : List Tok × List Json × String), hit ∈ deepScanWalk ord n p →
      ∃ x xs, hit.2.1 = x :: xs ∧ looksLikeQuest ord x = true := by
  intro N
  induction N with
  | zero =>
    intro n hn p hit hm
    exfalso
    cases n <;> simp at hn
  | succ N ih =>
    intro n hn p hit hm
    cases n with
    | obj kvs =>
      simp only [deepScanWalk, List.nil_append] at hm
      refine deepScanObj_sound_aux ord kvs ?_ p hit hm
      intro v hv p' hit' hm'
      obtain ⟨k, hk⟩ := hv
      have h1 : sizeOf (k, v) < sizeOf kvs := List.sizeOf_lt_of_mem hk
      have h2 : sizeOf v ≤ N := by
        simp only [Json.obj.sizeOf_spec] at hn
        simp only [Prod.mk.sizeOf_spec] at h1
        omega
      exact ih v h2 p' hit' hm'
    | arr l =>
      have hl : ∀ v ∈ l, sizeOf v ≤ N := by
        intro v hv
        have h1 : sizeOf v < sizeOf l := List.sizeOf_lt_of_mem hv
        simp only [Json.arr.sizeOf_spec] at hn
        omega
      cases l with
      | nil =>
        rw [deepScanWalk] at hm <;> try simp
        simp [deepScanArr] at hm
      | cons x xs =>
        rw [deepScanWalk] at hm
        rcases List.mem_append.mp hm with h | h
        · by_cases hq : looksLikeQuest ord x = true
          · rw [if_pos hq] at h
            simp only [List.mem_singleton] at h
            subst h
            exact ⟨x, xs, rfl, hq⟩
          · rw [if_neg hq] at h
            simp at h
        · exact deepScanArr_sound_aux ord (x :: xs)
            (fun v hv p' hit' hm' => ih v (hl v hv) p' hit' hm')
            p 0 hit h
    | null => rw [deepScanWalk] at hm <;> simp_all
    | bool b => rw [deepScanWalk] at hm <;> simp_all
    | int m => rw [deepScanWalk] at hm <;> simp_all
    | float q => rw [deepScanWalk] at hm <;> simp_all
    | str s => rw [deepScanWalk] at hm <;> simp_all

theorem deepScanWalk_sound (ord : List String) (n : Json) (p : List Tok)
    (hit : List Tok × List Json × String)
    (hm : hit ∈ deepScanWalk ord n p) :
    ∃ x xs, hit.2.1 = x :: xs ∧ looksLikeQuest ord x = true :=
  deepScan_sound_aux ord (sizeOf n) n (Nat.le_refl _) p hit hm

/-- C5, counterexample.  The claim says a non-empty sequence is a
candidate IF AND ONLY IF its unwrapped first element has at least one
state-like key AND at least one name/code-like key.  The source's
`looks_like_quest` is a disjunction (two independent early-return loops),
so a sequence whose first element carries only the state-like key
`"state"` — and, as the first conjunct shows, no name/code-like key — is
accepted, and discovery returns it. -/
theorem deep_scan_or_cex :
    scanNameKeys.any
        (fun k => hasKeyCI [("state", Json.str "E_ACTIVE")] k) = false ∧
    findQuestArray ["struct", "data", "value", "tag"]
        (Json.obj [("root", Json.obj [("quests",
          Json.arr [Json.obj [("state", Json.str "E_ACTIVE")]])])])
      = some ([Json.obj [("state", Json.str "E_ACTIVE")]],
              [Tok.key "root", Tok.key "quests"], "deep-scan") :=
  ⟨rfl, rfl⟩

/-- C5 (amended): (1) every deep-scan candidate is a non-empty sequence
whose unwrapped first element carries at least one state-like key OR at
least one name/code-like key (the source's heuristic is a disjunction,
not the claimed conjunction); (2) the ranking picks a candidate of
maximal element count; (3) concretely, with a 1-element decoy and a
5-element candidate both passing the heuristic, discovery returns the
5-element list. -/
theorem deep_scan_amended :
    (∀ (ord : List String) (n : Json) (p : List Tok)
       (hit : List Tok × List Json × String), hit ∈ deepScanWalk ord n p →
       ∃ x xs, hit.2.1 = x :: xs ∧ looksLikeQuest ord x = true) ∧
    (∀ (cs : List (List Tok × List Json × String)) c, pickBest cs = some c →
       c ∈ cs ∧ ∀ d ∈ cs, d.2.1.length ≤ c.2.1.length) ∧
    findQuestArray ["struct", "data", "value", "tag"]
        (Json.obj [("root", Json.obj [
          ("decoy", Json.arr [Json.obj [("state", Json.str "E_A"),
            ("name", Json.str "q")]]),
          ("real", Json.arr [
            Json.obj [("state", Json.str "E_A"), ("name", Json.str "q")],
            Json.obj [("state", Json.str "E_A"), ("name", Json.str "q")],
            Json.obj [("state", Json.str "E_A"), ("name", Json.str "q")],
            Json.obj [("state", Json.str "E_A"), ("name", Json.str "q")],
            Json.obj [("state", Json.str "E_A"), ("name", Json.str "q")]])])])
      = some ([
            Json.obj [("state", Json.str "E_A"), ("name", Json.str "q")],
            Json.obj [("state", Json.str "E_A"), ("name", Json.str "q")],
            Json.obj [("state", Json.str "E_A"), ("name", Json.str "q")],
            Json.obj [("state", Json.str "E_A"), ("name", Json.str "q")],
            Json.obj [("state", Json.str "E_A"), ("name", Json.str "q")]],
          [Tok.key "root", Tok.key "real"], "deep-scan") :=
  ⟨fun ord n p hit hm => deepScanWalk_sound ord n p hit hm,
   fun cs => pickBest_spec cs, rfl⟩

/-- Witness for C5 (amended) at concrete inputs: the singleton scan hit of
a one-element sequence satisfies the soundness conclusion, and the ranking
of a singleton candidate list picks it. -/
theorem deep_scan_amended_witness :
    (∃ x xs,
       (([Tok.key "r"], [Json.obj [("state", Json.str "E_A")]],
         "deep-scan") : List Tok × List Json × String).2.1 = x :: xs ∧
       looksLikeQuest ["struct", "data", "value", "tag"] x = true) ∧
    ((([Tok.key "r"], [Json.null], "deep-scan") :
        List Tok × List Json × String) ∈
        [([Tok.key "r"], [Json.null], "deep-scan")] ∧
     ∀ d ∈ [(([Tok.key "r"], [Json.null], "deep-scan") :
        List Tok × List Json × String)],
       d.2.1.length ≤
         (([Tok.key "r"], [Json.null], "deep-scan") :
           List Tok × List Json × String).2.1.length) := by
  constructor
  · exact deep_scan_amended.1 ["struct", "data", "value", "tag"]
      (Json.arr [Json.obj [("state", Json.str "E_A")]]) [Tok.key "r"]
      ([Tok.key "r"], [Json.obj [("state", Json.str "E_A")]], "deep-scan")
      (List.mem_singleton_self _)
  · exact deep_scan_amended.2.1
      [([Tok.key "r"], [Json.null], "deep-scan")]
      ([Tok.key "r"], [Json.null], "deep-scan") rfl

-- ------------------------------------------------------------------
-- mission.py : _norm_name, _dfs_find_int_by_key and the six-tier
-- progress reconciliation of replace_quest_by_name_smart  (claim C4)
-- ------------------------------------------------------------------

/-- Membership in Python's `string.punctuation` (ASCII 33–47, 58–64,
91–96, 123–126). -/
def isPunctChar (c : Char) : Bool :=
  (33 ≤ c.toNat && c.toNat ≤ 47) || (58 ≤ c.toNat && c.toNat ≤ 64) ||
    (91 ≤ c.toNat && c.toNat ≤ 96) || (123 ≤ c.toNat && c.toNat ≤ 126)

/-- The deletion table `_punct_tbl` built from
`string.punctuation + " _\t\r\n"` (the underscore is ASCII 95, already in
the punctuation range). -/
def isDeletedChar (c : Char) : Bool :=
  isPunctChar c || c = ' ' || c = '\t' || c = '\r' || c = '\n'

/-- `mission._norm_name(s)`: strip, lower-case, then delete punctuation,
spaces, underscores, tabs and line breaks. -/
def normName (s : String) : String :=
  (((pyStrip s.data).map lowerChar).filter
    (fun c => !isDeletedChar c)).asString

/-- Python `isinstance(v, int)` — true for booleans too (`bool` is an
`int` subclass). -/
def isPyInt : Json → Bool
  | Json.int _ => true
  | Json.bool _ => true
  | _ => false

/-- The first member of a mapping whose value is an int — the wrapped-int
probe (`for inner_k, inner_v in v.items(): if isinstance(inner_v, int)`)
of `_dfs_find_int_by_key`. -/
def firstIntMember : List (String × Json) → Option String
  | [] => none
  | (k, v) :: rest => if isPyInt v then some k else firstIntMember rest

mutual
/-- `_dfs_find_int_by_key.walk(n, p)` threading the `nonlocal out`
accumulator: return immediately when `out` is already set, else loop over
a mapping's entries or a sequence's elements. -/
def dfsWalk (key : String) (n : Json) (p : List Tok)
    (acc : Option (List Tok)) : Option (List Tok) :=
  match acc with
  | some r => some r
  | none =>
    match n with
    | Json.obj kvs => dfsObjLoop key kvs kvs p none
    | Json.arr l => dfsArrLoop key l p 0 none
    | _ => none
termination_by structural n

/-- The mapping loop of `walk`.  An exact lower-cased key match holding an
int — or a dict with an int member — OVERWRITES the accumulator and stops
the loop, even when a recursion into an earlier sibling had already set
it; otherwise the entry is recursed into (a no-op once the accumulator is
set) and the loop continues.  The path component is
`lk.get(pk, k)` — the last key of the whole mapping with the same
lower-casing. -/
def dfsObjLoop (key : String) (all entries : List (String × Json))
    (p : List Tok) (acc : Option (List Tok)) : Option (List Tok) :=
  match entries with
  | [] => acc
  | (k, v) :: rest =>
    let outKey := match ciKey all (lowerStr k) with
                  | some orig => orig
                  | none => k
    if lowerStr k = key && isPyInt v then some (p ++ [Tok.key outKey])
    else
      match v with
      | Json.obj inner =>
        if lowerStr k = key then
          match firstIntMember inner with
          | some innerK => some (p ++ [Tok.key outKey, Tok.key innerK])
          | none =>
            dfsObjLoop key all rest p
              (dfsWalk key v (p ++ [Tok.key outKey]) acc)
        else
          dfsObjLoop key all rest p
            (dfsWalk key v (p ++ [Tok.key outKey]) acc)
      | _ =>
        dfsObjLoop key all rest p
          (dfsWalk key v (p ++ [Tok.key outKey]) acc)
termination_by structural entries

/-- The sequence loop of `walk`. -/
def dfsArrLoop (key : String) (l : List Json) (p : List Tok) (i : Nat)
    (acc : Option (List Tok)) : Option (List Tok) :=
  match l with
  | [] => acc
  | v :: rest =>
    dfsArrLoop key rest p (i + 1)
      (dfsWalk key v (p ++ [Tok.idx (Int.ofNat i)]) acc)
termination_by structural l
end

/-- `mission._dfs_find_int_by_key(obj, base_path, key_lower)`. -/
def dfsFindIntByKey (tree : Json) (basePath : List Tok)
    (keyLower : String) : Option (List Tok) :=
  match getJ tree basePath with
  | Json.null => none
  | root => dfsWalk keyLower root basePath none

/-- One discovered ProgressObject of a quest row: its absolute path,
display label and signature.  (The row also carries a bookkeeping `value`
field which the reconciliation updates but never reads again; it is not
modelled.) -/
structure ProgObj where
  path_abs : List Tok
  label : String
  sig : String

/-- One progress entry of an imported record: `path_abs` when the record
supplies a list-valued path, `label`/`sig` through `str(p.get(...))`,
`value` as `int(p.get("value"))` with `none` standing for the raising
case, and the `__done` marker (absent = `false`). -/
structure SrcItem where
  path_abs : Option (List Tok)
  label : String
  sig : String
  value : Option Int
  done : Bool

/-- The mutable state threaded through the six tiers: the tree, the
`used` index set, the three prebuilt index queues and the `applied_prog`
counter. -/
structure TierState where
  data : Json
  used : List Nat
  byLab : List (String × List Nat)
  byNLab : List (String × List Nat)
  bySig : List (String × List Nat)
  applied : Nat

/-- `key in m` / `m[key]` on an index dict. -/
def lookupIdx : List (String × List Nat) → String → Option (List Nat)
  | [], _ => none
  | (k', l) :: rest, k => if k' = k then some l else lookupIdx rest k

/-- Store back the (mutated-in-place in Python) queue of a key. -/
def storeIdx : List (String × List Nat) → String → List Nat →
    List (String × List Nat)
  | [], _, _ => []
  | (k', l') :: rest, k, l =>
    if k' = k then (k', l) :: rest else (k', l') :: storeIdx rest k l

/-- `m.setdefault(key, []).append(i)`. -/
def multiAdd : List (String × List Nat) → String → Nat →
    List (String × List Nat)
  | [], k, i => [(k, [i])]
  | (k', l) :: rest, k, i =>
    if k' = k then (k', l ++ [i]) :: rest else (k', l) :: multiAdd rest k i

/-- `for i, o in enumerate(dst_objs): m.setdefault(f(o), []).append(i)`. -/
def buildIndexGo (f : ProgObj → String) : List ProgObj → Nat →
    List (String × List Nat) → List (String × List Nat)
  | [], _, m => m
  | o :: rest, i, m => buildIndexGo f rest (i + 1) (multiAdd m (f o) i)

def buildIndex (f : ProgObj → String) (objs : List ProgObj) :
    List (String × List Nat) :=
  buildIndexGo f objs 0 []

/-- `while lst and lst[0] in used: lst.pop(0)` then `if lst:
i = lst.pop(0)`: the claimed fresh index (if any) and the queue that
remains stored. -/
def popQueue (used : List Nat) : List Nat → Option Nat × List Nat
  | [] => (none, [])
  | i :: rest => if i ∈ used then popQueue used rest else (some i, rest)

/-- `dst_objs[i]["path_abs"]`; `enumerate`-built indices are always in
range, and the impossible out-of-range access is given the empty path,
which `_set` rejects. -/
def pathAt (dst : List ProgObj) (i : Nat) : List Tok :=
  match dst.get? i with
  | some o => o.path_abs
  | none => []

/-- Tier 1 (exact path) for one entry: write through the supplied
absolute path; on success count it and mark the entry done.  Note that no
`used` index is consumed here and that tier 1 has no done-check (it runs
first). -/
def tier1Step (st : TierState) (p : SrcItem) : TierState × SrcItem :=
  match p.path_abs with
  | none => (st, p)
  | some pth =>
    match p.value with
    | none => (st, p)
    | some val =>
      let r := setJ st.data pth (Json.int val)
      if r.2 then
        ({ st with data := r.1, applied := st.applied + 1 },
         { p with done := true })
      else
        ({ st with data := r.1 }, p)

/-- Tier 2 (exact label) for one not-yet-done entry: drop used indices
from the label's queue and claim its head; the claimed index enters
`used` BEFORE the value parse, so an unparsable value `continue`s with
the index consumed and the entry NOT marked done; otherwise the write is
attempted and the entry marked done whether or not the write succeeded. -/
def tier2Step (dst : List ProgObj) (st : TierState) (p : SrcItem) :
    TierState × SrcItem :=
  if p.done then (st, p) else
  match lookupIdx st.byLab p.label with
  | none => (st, p)
  | some lst =>
    let q := popQueue st.used lst
    let st1 := { st with byLab := storeIdx st.byLab p.label q.2 }
    match q.1 with
    | none => (st1, p)
    | some i =>
      let st2 := { st1 with used := st1.used ++ [i] }
      match p.value with
      | none => (st2, p)
      | some val =>
        let r := setJ st2.data (pathAt dst i) (Json.int val)
        ({ st2 with
            data := r.1,
            applied := st2.applied + (if r.2 then 1 else 0) },
         { p with done := true })

/-- Tier 3 (normalized label), identical to tier 2 on the `by_nlab`
queue keyed by `_norm_name` of the entry's label. -/
def tier3Step (dst : List ProgObj) (st : TierState) (p : SrcItem) :
    TierState × SrcItem :=
  if p.done then (st, p) else
  match lookupIdx st.byNLab (normName p.label) with
  | none => (st, p)
  | some lst =>
    let q := popQueue st.used lst
    let st1 := { st with byNLab := storeIdx st.byNLab (normName p.label) q.2 }
    match q.1 with
    | none => (st1, p)
    | some i =>
      let st2 := { st1 with used := st1.used ++ [i] }
      match p.value with
      | none => (st2, p)
      | some val =>
        let r := setJ st2.data (pathAt dst i) (Json.int val)
        ({ st2 with
            data := r.1,
            applied := st2.applied + (if r.2 then 1 else 0) },
         { p with done := true })

/-- Tier 4 (signature), identical to tier 2 on the `by_sig` queue, with
the source's `if sig and sig in by_sig` non-empty guard. -/
def tier4Step (dst : List ProgObj) (st : TierState) (p : SrcItem) :
    TierState × SrcItem :=
  if p.done then (st, p) else
  if p.sig = "" then (st, p) else
  match lookupIdx st.bySig p.sig with
  | none => (st, p)
  | some lst =>
    let q := popQueue st.used lst
    let st1 := { st with bySig := storeIdx st.bySig p.sig q.2 }
    match q.1 with
    | none => (st1, p)
    | some i =>
      let st2 := { st1 with used := st1.used ++ [i] }
      match p.value with
      | none => (st2, p)
      | some val =>
        let r := setJ st2.data (pathAt dst i) (Json.int val)
        ({ st2 with
            data := r.1,
            applied := st2.applied + (if r.2 then 1 else 0) },
         { p with done := true })

/-- Run a per-entry tier over the whole `src_items` list, threading the
state and collecting the (possibly done-marked) entries. -/
def runSteps (f : TierState → SrcItem → TierState × SrcItem) :
    TierState → List SrcItem → TierState × List SrcItem
  | st, [] => (st, [])
  | st, p :: rest =>
    let r1 := f st p
    let r2 := runSteps f r1.1 rest
    (r2.1, r1.2 :: r2.2)

/-- `while di < len(dst_objs) and di in used: di += 1`, compiled with the
loop's own bound `len - di` as structural fuel (the loop advances `di` by
one while `di < len`, so the fuel tracks `len - di` exactly). -/
def skipUsedGo (used : List Nat) : Nat → Nat → Nat
  | 0, di => di
  | fuel + 1, di => if di ∈ used then skipUsedGo used fuel (di + 1) else di

def skipUsed (used : List Nat) (len : Nat) (di : Nat) : Nat :=
  skipUsedGo used (len - di) di

/-- Tier 5 (positional fallback): advance `di` past used indices; once it
reaches the end the loop `break`s leaving the remaining entries
untouched; an unparsable value `continue`s WITHOUT consuming `di`;
otherwise the write is attempted, `di` is consumed into `used`, and the
entry is marked done regardless of the write's success. -/
def tier5Go (dst : List ProgObj) (st : TierState) (di : Nat) :
    List SrcItem → TierState × List SrcItem
  | [] => (st, [])
  | p :: rest =>
    if p.done then
      let r := tier5Go dst st di rest
      (r.1, p :: r.2)
    else
      let di2 := skipUsed st.used dst.length di
      if di2 ≥ dst.length then (st, p :: rest)
      else
        match p.value with
        | none =>
          let r := tier5Go dst st di2 rest
          (r.1, p :: r.2)
        | some val =>
          let w := setJ st.data (pathAt dst di2) (Json.int val)
          let st2 := { st with
            data := w.1,
            applied := st.applied + (if w.2 then 1 else 0),
            used := st.used ++ [di2] }
          let r := tier5Go dst st2 (di2 + 1) rest
          (r.1, ({ p with done := true }) :: r.2)

/-- Tier 6 (deep key search inside the entity's subtree), run only when
the matched row's `elem_base_abs` is a list; the entry is marked done
once a target path is found and the value parses, whether or not the
write succeeded. -/
def tier6Go (base : List Tok) (st : TierState) :
    List SrcItem → TierState × List SrcItem
  | [] => (st, [])
  | p :: rest =>
    if p.done then
      let r := tier6Go base st rest
      (r.1, p :: r.2)
    else
      let labelLc := ((pyStrip p.label.data).map lowerChar).asString
      if labelLc = "" then
        let r := tier6Go base st rest
        (r.1, p :: r.2)
      else
        match dfsFindIntByKey st.data base labelLc with
        | none =>
          let r := tier6Go base st rest
          (r.1, p :: r.2)
        | some target =>
          match p.value with
          | none =>
            let r := tier6Go base st rest
            (r.1, p :: r.2)
          | some val =>
            let w := setJ st.data target (Json.int val)
            let st2 := { st with
              data := w.1,
              applied := st.applied + (if w.2 then 1 else 0) }
            let r := tier6Go base st2 rest
            (r.1, ({ p with done := true }) :: r.2)

/-- The progress-matching block of `replace_quest_by_name_smart` (the
body of `if src_items:`) for one matched pair: build the three index
queues from the entity's discovered progress objects, then run the six
tiers in this order — exact path, exact label, normalized label,
signature, position, deep key search.  `elemBase` is the row's
`elem_base_abs`; tier 6 runs only when it is a list. -/
def runTiers (data : Json) (elemBase : Option (List Tok))
    (dst : List ProgObj) (src : List SrcItem) :
    TierState × List SrcItem :=
  let st0 : TierState :=
    { data := data, used := [],
      byLab := buildIndex (fun o => o.label) dst,
      byNLab := buildIndex (fun o => normName o.label) dst,
      bySig := buildIndex (fun o => o.sig) dst,
      applied := 0 }
  let r1 := runSteps tier1Step st0 src
  let r2 := runSteps (tier2Step dst) r1.1 r1.2
  let r3 := runSteps (tier3Step dst) r2.1 r2.2
  let r4 := runSteps (tier4Step dst) r3.1 r3.2
  let r5 := tier5Go dst r4.1 0 r4.2
  match elemBase with
  | some base => tier6Go base r5.1 r5.2
  | none => r5

/-- C4, counterexample.  The claim says each tier consumes the discovered
objects it matches so later tiers cannot claim them.  Tier 1 (exact path)
does NOT consume: on a tree `{"a": 0, "b": 1}` with discovered objects
`a` (label `kills`) and `b` (label `other`), an entry writing 7 through
the exact path of `a` succeeds in tier 1, yet a second entry labelled
`kills` still claims the same object `a` in tier 2 and overwrites it
with 9 — under the claim, `a` would hold 7 and the second entry would
have fallen through to the positional tier.  (`b` is untouched.) -/
theorem tier_consumption_cex :
    (runTiers (Json.obj [("a", Json.int 0), ("b", Json.int 1)]) none
        [⟨[Tok.key "a"], "kills", "s0"⟩, ⟨[Tok.key "b"], "other", "s1"⟩]
        [⟨some [Tok.key "a"], "", "", some 7, false⟩,
         ⟨none, "kills", "", some 9, false⟩]).1.data
      = Json.obj [("a", Json.int 9), ("b", Json.int 1)] ∧
    getJ (runTiers (Json.obj [("a", Json.int 0), ("b", Json.int 1)]) none
        [⟨[Tok.key "a"], "kills", "s0"⟩, ⟨[Tok.key "b"], "other", "s1"⟩]
        [⟨some [Tok.key "a"], "", "", some 7, false⟩,
         ⟨none, "kills", "", some 9, false⟩]).1.data [Tok.key "a"]
      = Json.int 9 :=
  ⟨rfl, rfl⟩

/-- C4 (amended): the six tiers run in strictly the order exact path,
exact label, normalized label, signature, position, deep key search, and
an entry marked done by an earlier tier is never acted on by a later tier
— tiers 2 through 6 skip done entries, leaving both the state and the
entry untouched (conjuncts 1–5).  When an entry supplies an exact path
that resolves, tier 1 applies it and marks the entry done, so its label
is never used even if that label matches a different object (conjunct 6:
the entry's path targets `x` while its label `beta` belongs to the object
at `y`; the result writes `x` and leaves `y` alone).  Tiers 2–5 do
consume matched objects through the shared `used` set, but tier 1 and
tier 6 write through paths without consuming, which is what the
counterexample exhibits. -/
theorem tiers_amended :
    (∀ (dst : List ProgObj) (st : TierState) (p : SrcItem),
       p.done = true → tier2Step dst st p = (st, p)) ∧
    (∀ (dst : List ProgObj) (st : TierState) (p : SrcItem),
       p.done = true → tier3Step dst st p = (st, p)) ∧
    (∀ (dst : List ProgObj) (st : TierState) (p : SrcItem),
       p.done = true → tier4Step dst st p = (st, p)) ∧
    (∀ (dst : List ProgObj) (st : TierState) (di : Nat) (p : SrcItem)
       (rest : List SrcItem), p.done = true →
       tier5Go dst st di (p :: rest)
         = ((tier5Go dst st di rest).1, p :: (tier5Go dst st di rest).2)) ∧
    (∀ (base : List Tok) (st : TierState) (p : SrcItem)
       (rest : List SrcItem), p.done = true →
       tier6Go base st (p :: rest)
         = ((tier6Go base st rest).1, p :: (tier6Go base st rest).2)) ∧
    (runTiers (Json.obj [("x", Json.int 0), ("y", Json.int 0)]) none
        [⟨[Tok.key "x"], "alpha", "sx"⟩, ⟨[Tok.key "y"], "beta", "sy"⟩]
        [⟨some [Tok.key "x"], "beta", "", some 5, false⟩]).1.data
      = Json.obj [("x", Json.int 5), ("y", Json.int 0)] := by
  refine ⟨?_, ?_, ?_, ?_, ?_, rfl⟩
  · intro dst st p h; simp [tier2Step, h]
  · intro dst st p h; simp [tier3Step, h]
  · intro dst st p h; simp [tier4Step, h]
  · intro dst st di p rest h; simp [tier5Go, h]
  · intro base st p rest h; simp [tier6Go, h]

/-- Witness for C4 (amended) at concrete inputs: a done entry passes
through tier 2 and tier 5 unchanged. -/
theorem tiers_amended_witness :
    tier2Step [] ⟨Json.null, [], [], [], [], 0⟩
        ⟨none, "kills", "", some 1, true⟩
      = (⟨Json.null, [], [], [], [], 0⟩, ⟨none, "kills", "", some 1, true⟩) ∧
    tier5Go [] ⟨Json.null, [], [], [], [], 0⟩ 0
        [⟨none, "kills", "", some 1, true⟩]
      = ((tier5Go [] ⟨Json.null, [], [], [], [], 0⟩ 0 []).1,
         ⟨none, "kills", "", some 1, true⟩ ::
           (tier5Go [] ⟨Json.null, [], [], [], [], 0⟩ 0 []).2) :=
  ⟨tiers_amended.1 [] ⟨Json.null, [], [], [], [], 0⟩
     ⟨none, "kills", "", some 1, true⟩ rfl,
   tiers_amended.2.2.2.1 [] ⟨Json.null, [], [], [], [], 0⟩ 0
     ⟨none, "kills", "", some 1, true⟩ [] rfl⟩
